import Mathlib

/-!
# Verification of the gpt4all-file-bulk-embedder batch upload engine

Shallow embedding of `src/app.py` (a directory-tree bulk uploader to an
AnythingLLM endpoint) and proofs about it.  The embedding covers:

* `Config.is_valid` (app.py lines 77-83);
* the `os.walk` enumeration loop with in-place pruning of ignored
  subdirectory names (app.py lines 96-101 / 441-450), modelled over an
  explicit directory-tree datatype;
* the upload unit `upload_file` (app.py lines 459-484): lossy-safe UTF-8
  decoding (`errors="replace"`), payload construction, outcome
  classification by HTTP status / raised exception;
* the sequential CLI loop `embed_files_cli` (app.py lines 103-134);
* the threaded coordinator `embed_files_threaded` (app.py lines 430-511)
  as a small-step transition system over an explicit run state, together
  with `stop_embedding` (lines 421-427) and `start_embedding`
  (lines 385-419).
-/

namespace BulkEmbed

/-! ## Configuration (`Config`, app.py lines 77-83)

Python's `self.api_url.strip()` removes leading and trailing whitespace;
`bool(s)` on a string is `True` iff the string is nonempty.  We model
`str.strip` on the character list of the string. -/

/-- Python `str.strip()` on a list of characters: drop whitespace from both
ends. -/
def stripChars (cs : List Char) : List Char :=
  ((cs.dropWhile Char.isWhitespace).reverse.dropWhile Char.isWhitespace).reverse

/-- `Config` from app.py: the API url and token, as stored by `__init__`
(`url or ""` / `token or ""`). -/
structure Config where
  api_url : String
  api_token : String
  deriving Repr, DecidableEq

/-- `Config.is_valid` (app.py line 82-83):
`bool(self.api_url.strip()) and bool(self.api_token.strip())`. -/
def Config.is_valid (c : Config) : Bool :=
  !(stripChars c.api_url.data).isEmpty && !(stripChars c.api_token.data).isEmpty

lemma stripChars_eq_nil_iff (cs : List Char) :
    stripChars cs = [] ↔ ∀ c ∈ cs, c.isWhitespace := by
  unfold stripChars
  rw [List.reverse_eq_nil_iff, List.dropWhile_eq_nil_iff]
  simp only [List.mem_reverse]
  constructor
  · intro h c hc
    rw [← @List.takeWhile_append_dropWhile _ Char.isWhitespace cs] at hc
    rcases List.mem_append.mp hc with h1 | h2
    · exact List.mem_takeWhile_imp h1
    · exact h c h2
  · intro h c hc
    refine h c ?_
    rw [← @List.takeWhile_append_dropWhile _ Char.isWhitespace cs]
    exact List.mem_append.mpr (Or.inr hc)

/-! ## Enumeration (app.py lines 96-101 / 441-450)

The enumeration loop of `embed_files_cli` (and identically of
`embed_files_threaded` when no stop is requested):

```python
for root, dirs, files in os.walk(base_dir):
    dirs[:] = [d for d in dirs if d not in ignored_dirs]
    for filename in files:
        full_path = os.path.join(root, filename)
        all_files.append(full_path)
```

`os.walk` is top-down: it yields the current directory's files, then
descends into each subdirectory kept by the in-place pruning of `dirs`,
re-applying the pruning at every level.  We model the file system as an
explicit finite tree and `os.path.join(root, name)` (POSIX, relative
`name`, `root` not ending in a separator) as `root ++ "/" ++ name`. -/

mutual
/-- A directory: its regular-file names and its subdirectories. -/
inductive DirTree : Type where
  | node (files : List String) (subdirs : DirForest)

/-- An ordered list of named subdirectories. -/
inductive DirForest : Type where
  | nil
  | cons (name : String) (tree : DirTree) (rest : DirForest)
end

mutual
/-- The `all_files` list accumulated by the `os.walk` loop: current
directory's files joined onto `root`, then the walk of each subdirectory
whose name survives `dirs[:] = [d for d in dirs if d not in ignored_dirs]`. -/
def walkFiles (root : String) (ignored : List String) : DirTree → List String
  | .node files subdirs =>
      files.map (fun f => root ++ "/" ++ f) ++ walkForest root ignored subdirs

/-- Walk of the pruned subdirectory list: an ignored name contributes
nothing (its whole subtree is skipped), a kept name contributes its
recursive walk. -/
def walkForest (root : String) (ignored : List String) : DirForest → List String
  | .nil => []
  | .cons name tree rest =>
      (if ignored.contains name then []
       else walkFiles (root ++ "/" ++ name) ignored tree)
        ++ walkForest root ignored rest
end

mutual
/-- All files of the tree, each as (list of ancestor directory names below
the root, file name) — the reference enumeration the walk is compared to. -/
def entries : DirTree → List (List String × String)
  | .node files subdirs =>
      files.map (fun f => (([] : List String), f)) ++ entriesForest subdirs

/-- Entries of a subdirectory list, ancestor lists extended with the
subdirectory name. -/
def entriesForest : DirForest → List (List String × String)
  | .nil => []
  | .cons name tree rest =>
      (entries tree).map (fun e => (name :: e.1, e.2)) ++ entriesForest rest
end

/-- An entry has some ancestor directory whose name is in `ignored`. -/
def hasIgnoredAncestor (ignored : List String) (e : List String × String) : Bool :=
  e.1.any (fun d => ignored.contains d)

/-- The full path of an entry below `root`: each segment joined with `/`,
exactly as the repeated `os.path.join` along the walk produces it. -/
def renderPath (root : String) (e : List String × String) : String :=
  (e.1 ++ [e.2]).foldl (fun acc s => acc ++ "/" ++ s) root

lemma renderPath_cons (root name : String) (anc : List String) (f : String) :
    renderPath root (name :: anc, f) = renderPath (root ++ "/" ++ name) (anc, f) := by
  simp [renderPath]

mutual
theorem walkFiles_eq_render (root : String) (ign : List String) (t : DirTree) :
    walkFiles root ign t
      = ((entries t).filter (fun e => !hasIgnoredAncestor ign e)).map (renderPath root) := by
  match t with
  | .node files subdirs =>
    rw [walkFiles, entries, List.filter_append, List.map_append,
      walkForest_eq_render root ign subdirs]
    congr 1
    rw [List.filter_map, List.map_map]
    have h1 : (files.filter ((fun e => !hasIgnoredAncestor ign e) ∘ (fun f => (([] : List String), f)))) = files := by
      apply List.filter_eq_self.mpr
      intro a _
      simp [hasIgnoredAncestor]
    rw [h1]
    apply List.map_congr_left
    intro a _
    simp [renderPath]

theorem walkForest_eq_render (root : String) (ign : List String) (f : DirForest) :
    walkForest root ign f
      = ((entriesForest f).filter (fun e => !hasIgnoredAncestor ign e)).map (renderPath root) := by
  match f with
  | .nil => rw [walkForest, entriesForest]; rfl
  | .cons name tree rest =>
    rw [walkForest, entriesForest, List.filter_append, List.map_append,
      walkForest_eq_render root ign rest]
    congr 1
    rw [List.filter_map, List.map_map]
    by_cases hname : ign.contains name
    · have hm : name ∈ ign := by simpa using hname
      have h1 : ((entries tree).filter ((fun e => !hasIgnoredAncestor ign e) ∘ (fun e => (name :: e.1, e.2)))) = [] := by
        apply List.filter_eq_nil_iff.mpr
        intro a _
        simp [hasIgnoredAncestor]
        intro h
        exact absurd hm h
      rw [h1, if_pos hname]
      rfl
    · have hm : name ∉ ign := by simpa using hname
      rw [if_neg hname, walkFiles_eq_render (root ++ "/" ++ name) ign tree]
      have h1 : ((entries tree).filter ((fun e => !hasIgnoredAncestor ign e) ∘ (fun e => (name :: e.1, e.2)))) = ((entries tree).filter (fun e => !hasIgnoredAncestor ign e)) := by
        apply List.filter_congr
        intro a _
        simp [hasIgnoredAncestor]
        intro _
        exact hm
      rw [h1]
      apply List.map_congr_left
      intro a _
      exact (renderPath_cons root name a.1 a.2).symm
end

/-- C1: the walk's output excludes exactly the files below an
ignored-named directory and lists every other file exactly once.  The two
hypotheses state what a real file system guarantees about the snapshot:
distinct tree positions are distinct entries (`hnd`) and render to
distinct path strings (`hinj`); without them two sibling files of the
same name would collapse to one path. -/
theorem walk_excludes_ignored_once
    (root : String) (ign : List String) (t : DirTree)
    (hnd : (entries t).Nodup)
    (hinj : ∀ e1 ∈ entries t, ∀ e2 ∈ entries t,
      renderPath root e1 = renderPath root e2 → e1 = e2) :
    (∀ p ∈ walkFiles root ign t, ∃ e ∈ entries t,
        hasIgnoredAncestor ign e = false ∧ renderPath root e = p) ∧
    (∀ e ∈ entries t,
      (hasIgnoredAncestor ign e = true → renderPath root e ∉ walkFiles root ign t) ∧
      (hasIgnoredAncestor ign e = false →
        (walkFiles root ign t).count (renderPath root e) = 1)) := by
  rw [walkFiles_eq_render]
  constructor
  · intro p hp
    rcases List.mem_map.mp hp with ⟨e, he, hre⟩
    rcases List.mem_filter.mp he with ⟨he1, he2⟩
    exact ⟨e, he1, by simpa using he2, hre⟩
  · intro e he
    constructor
    · intro hig hmem
      rcases List.mem_map.mp hmem with ⟨e', he', hre⟩
      rcases List.mem_filter.mp he' with ⟨he'1, he'2⟩
      have : e' = e := hinj e' he'1 e he hre
      subst this
      simp [hig] at he'2
    · intro hig
      have hef : e ∈ (entries t).filter (fun e => !hasIgnoredAncestor ign e) :=
        List.mem_filter.mpr ⟨he, by simp [hig]⟩
      have hndf : ((entries t).filter (fun e => !hasIgnoredAncestor ign e)).Nodup :=
        hnd.filter _
      have hndm : (((entries t).filter (fun e => !hasIgnoredAncestor ign e)).map
          (renderPath root)).Nodup := by
        apply List.Nodup.map_on ?_ hndf
        intro x hx y hy hxy
        exact hinj x (List.mem_filter.mp hx).1 y (List.mem_filter.mp hy).1 hxy
      exact List.count_eq_one_of_mem hndm (List.mem_map.mpr ⟨e, hef, rfl⟩)

/-- Concrete directory tree for evaluating the enumeration theorems:
root contains `a.txt`, a kept subdirectory `sub` with `b.txt`, and an
ignored subdirectory `skip` containing `c.txt` and a nested `skip2` with
`d.txt`. -/
def treeW : DirTree :=
  .node ["a.txt"]
    (.cons "sub" (.node ["b.txt"] .nil)
      (.cons "skip" (.node ["c.txt"] (.cons "skip2" (.node ["d.txt"] .nil) .nil)) .nil))

example : walkFiles "r" ["skip"] treeW = ["r/a.txt", "r/sub/b.txt"] := by decide

example : entries treeW =
    [([], "a.txt"), (["sub"], "b.txt"), (["skip"], "c.txt"), (["skip", "skip2"], "d.txt")] := by
  decide

/-- Witness for `walk_excludes_ignored_once`: on `treeW` with
`ignored = ["skip"]`, the file under the ignored directory is absent and a
kept file occurs exactly once. -/
theorem walk_excludes_ignored_once_witness :
    ("r/skip/c.txt" ∉ walkFiles "r" ["skip"] treeW) ∧
    (walkFiles "r" ["skip"] treeW).count "r/sub/b.txt" = 1 := by
  have h := walk_excludes_ignored_once "r" ["skip"] treeW (by decide) (by decide)
  constructor
  · have h2 := (h.2 (["skip"], "c.txt") (by decide)).1 (by decide)
    have hr : renderPath "r" ((["skip"] : List String), "c.txt") = "r/skip/c.txt" := by decide
    rwa [hr] at h2
  · have h3 := (h.2 (["sub"], "b.txt") (by decide)).2 (by decide)
    have hr : renderPath "r" ((["sub"] : List String), "b.txt") = "r/sub/b.txt" := by decide
    rwa [hr] at h3

/-- C10: `Config.is_valid` is true iff both the url and the token contain
some non-whitespace character (so a whitespace-only string is rejected like
an empty one), and it is a function of those two fields alone. -/
theorem config_is_valid_iff (c c' : Config) :
    (c.is_valid = true ↔
      ((∃ ch ∈ c.api_url.data, ¬ch.isWhitespace) ∧
       (∃ ch ∈ c.api_token.data, ¬ch.isWhitespace))) ∧
    (c.api_url = c'.api_url → c.api_token = c'.api_token → c.is_valid = c'.is_valid) := by
  have key : ∀ cs : List Char,
      ((!(stripChars cs).isEmpty) = true ↔ ∃ ch ∈ cs, ¬ch.isWhitespace) := by
    intro cs
    rw [Bool.not_eq_true', List.isEmpty_eq_false]
    constructor
    · intro h
      by_contra hall
      push_neg at hall
      exact h ((stripChars_eq_nil_iff cs).mpr hall)
    · intro ⟨ch, hch, hw⟩ hnil
      exact hw ((stripChars_eq_nil_iff cs).mp hnil ch hch)
  constructor
  · rw [Config.is_valid, Bool.and_eq_true, key, key]
  · intro h1 h2
    rw [Config.is_valid, Config.is_valid, h1, h2]

/-- Witness for `config_is_valid_iff`: a whitespace-only url is invalid,
a configuration with real content in both fields is valid, and the
congruence part applies at equal fields. -/
theorem config_is_valid_iff_witness :
    (Config.mk "  " "tok").is_valid = false ∧
    (Config.mk "http://x" "tok").is_valid = true ∧
    (Config.mk "http://x" "tok").is_valid = (Config.mk "http://x" "tok").is_valid := by
  refine ⟨by decide, by decide, ?_⟩
  exact (config_is_valid_iff (Config.mk "http://x" "tok") (Config.mk "http://x" "tok")).2
    rfl rfl

/-! ## Lossy-safe text decoding (app.py lines 109 / 464)

`open(fpath, "r", encoding="utf-8", errors="replace")` decodes the file's
bytes as UTF-8, substituting U+FFFD for invalid sequences instead of
raising `UnicodeDecodeError`.  We model the codec over byte lists:
`utf8Decode?` is the strict decoder (`errors="strict"`, `none` on the
first invalid sequence) and `utf8DecodeReplace` the replacing one.  Both
are driven by fuel; since every step consumes at least one byte,
`fuel = bs.length` never runs out, and the top-level decoders fix the
fuel that way.  The number of replacement characters emitted for a
truncated multi-byte sequence is approximated (one per unconsumed byte);
which sequences count as valid UTF-8 follows RFC 3629 as CPython
implements it. -/

/-- U+FFFD, the replacement character substituted by `errors="replace"`. -/
def replChar : Char := Char.ofNat 0xFFFD

/-- A UTF-8 continuation byte `0x80..0xBF`. -/
def isCont (b : Nat) : Bool := 0x80 ≤ b && b ≤ 0xBF

/-- Valid second byte after a three-byte lead `b1` (excludes overlong
encodings after `0xE0` and surrogates after `0xED`). -/
def isCont3 (b1 b2 : Nat) : Bool :=
  if b1 = 0xE0 then 0xA0 ≤ b2 && b2 ≤ 0xBF
  else if b1 = 0xED then 0x80 ≤ b2 && b2 ≤ 0x9F
  else isCont b2

/-- Valid second byte after a four-byte lead `b1` (excludes overlong
encodings after `0xF0` and planes beyond U+10FFFF after `0xF4`). -/
def isCont4 (b1 b2 : Nat) : Bool :=
  if b1 = 0xF0 then 0x90 ≤ b2 && b2 ≤ 0xBF
  else if b1 = 0xF4 then 0x80 ≤ b2 && b2 ≤ 0x8F
  else isCont b2

/-- Fueled UTF-8 decoding with `errors="replace"`: total, substitutes
`replChar` for every invalid or truncated sequence. -/
def utf8DecodeReplaceF : Nat → List Nat → List Char
  | _, [] => []
  | 0, _ :: _ => []
  | fuel + 1, b :: rest =>
    if b < 0x80 then Char.ofNat b :: utf8DecodeReplaceF fuel rest
    else if b < 0xC2 then replChar :: utf8DecodeReplaceF fuel rest
    else if b ≤ 0xDF then
      match rest with
      | b2 :: rest2 =>
        if isCont b2 then
          Char.ofNat ((b - 0xC0) * 0x40 + (b2 - 0x80)) :: utf8DecodeReplaceF fuel rest2
        else replChar :: utf8DecodeReplaceF fuel rest
      | [] => [replChar]
    else if b ≤ 0xEF then
      match rest with
      | b2 :: b3 :: rest3 =>
        if isCont3 b b2 && isCont b3 then
          Char.ofNat ((b - 0xE0) * 0x1000 + (b2 - 0x80) * 0x40 + (b3 - 0x80))
            :: utf8DecodeReplaceF fuel rest3
        else replChar :: utf8DecodeReplaceF fuel rest
      | _ => replChar :: utf8DecodeReplaceF fuel rest
    else if b ≤ 0xF4 then
      match rest with
      | b2 :: b3 :: b4 :: rest4 =>
        if isCont4 b b2 && isCont b3 && isCont b4 then
          Char.ofNat
              ((b - 0xF0) * 0x40000 + (b2 - 0x80) * 0x1000 + (b3 - 0x80) * 0x40 + (b4 - 0x80))
            :: utf8DecodeReplaceF fuel rest4
        else replChar :: utf8DecodeReplaceF fuel rest
      | _ => replChar :: utf8DecodeReplaceF fuel rest
    else replChar :: utf8DecodeReplaceF fuel rest

/-- Fueled strict UTF-8 decoding (`errors="strict"`): `none` on any invalid
or truncated sequence — the read that *would* fail solely due to
encoding. -/
def utf8DecodeF? : Nat → List Nat → Option (List Char)
  | _, [] => some []
  | 0, _ :: _ => none
  | fuel + 1, b :: rest =>
    if b < 0x80 then (utf8DecodeF? fuel rest).map (fun cs => Char.ofNat b :: cs)
    else if b < 0xC2 then none
    else if b ≤ 0xDF then
      match rest with
      | b2 :: rest2 =>
        if isCont b2 then
          (utf8DecodeF? fuel rest2).map
            (fun cs => Char.ofNat ((b - 0xC0) * 0x40 + (b2 - 0x80)) :: cs)
        else none
      | [] => none
    else if b ≤ 0xEF then
      match rest with
      | b2 :: b3 :: rest3 =>
        if isCont3 b b2 && isCont b3 then
          (utf8DecodeF? fuel rest3).map
            (fun cs => Char.ofNat ((b - 0xE0) * 0x1000 + (b2 - 0x80) * 0x40 + (b3 - 0x80)) :: cs)
        else none
      | _ => none
    else if b ≤ 0xF4 then
      match rest with
      | b2 :: b3 :: b4 :: rest4 =>
        if isCont4 b b2 && isCont b3 && isCont b4 then
          (utf8DecodeF? fuel rest4).map
            (fun cs =>
              Char.ofNat
                  ((b - 0xF0) * 0x40000 + (b2 - 0x80) * 0x1000 + (b3 - 0x80) * 0x40 + (b4 - 0x80))
                :: cs)
        else none
      | _ => none
    else none

/-- The decoding performed by the upload unit's file read. -/
def utf8DecodeReplace (bs : List Nat) : List Char :=
  utf8DecodeReplaceF bs.length bs

/-- The strict decoding the source does *not* use. -/
def utf8Decode? (bs : List Nat) : Option (List Char) :=
  utf8DecodeF? bs.length bs

example : utf8DecodeReplace [0x68, 0x69] = ['h', 'i'] := by decide
example : utf8DecodeReplace [0xC3, 0xA9] = ['é'] := by decide
example : utf8Decode? [0xFF, 0x68] = none := by decide
example : utf8DecodeReplace [0xFF, 0x68] = [replChar, 'h'] := by decide

lemma utf8F_spec : ∀ fuel (bs : List Nat), bs.length ≤ fuel →
    (∀ cs, utf8DecodeF? fuel bs = some cs → utf8DecodeReplaceF fuel bs = cs) ∧
    (utf8DecodeF? fuel bs = none → replChar ∈ utf8DecodeReplaceF fuel bs) := by
  intro fuel
  induction fuel with
  | zero =>
    intro bs hb
    match bs with
    | [] => simp [utf8DecodeF?, utf8DecodeReplaceF]
    | b :: rest => simp at hb
  | succ fuel ih =>
    intro bs hb
    match bs with
    | [] => simp [utf8DecodeF?, utf8DecodeReplaceF]
    | b :: rest =>
      have hrest : rest.length ≤ fuel := by simp at hb; omega
      simp only [utf8DecodeF?, utf8DecodeReplaceF]
      by_cases h1 : b < 0x80
      · simp only [if_pos h1]
        refine ⟨?_, ?_⟩
        · intro cs hcs
          rcases Option.map_eq_some'.mp hcs with ⟨cs', hcs', rfl⟩
          rw [(ih rest hrest).1 cs' hcs']
        · intro hn
          exact List.mem_cons_of_mem _ ((ih rest hrest).2 (Option.map_eq_none'.mp hn))
      · simp only [if_neg h1]
        by_cases h2 : b < 0xC2
        · simp only [if_pos h2]
          exact ⟨fun cs hcs => by simp at hcs, fun _ => List.mem_cons_self _ _⟩
        · simp only [if_neg h2]
          by_cases h3 : b ≤ 0xDF
          · simp only [if_pos h3]
            cases rest with
            | nil =>
              exact ⟨fun cs hcs => by simp at hcs, fun _ => List.mem_singleton_self _⟩
            | cons b2 rest2 =>
              have hrest2 : rest2.length ≤ fuel := by simp at hb; omega
              by_cases hc : isCont b2
              · simp only [if_pos hc]
                refine ⟨?_, ?_⟩
                · intro cs hcs
                  rcases Option.map_eq_some'.mp hcs with ⟨cs', hcs', rfl⟩
                  rw [(ih rest2 hrest2).1 cs' hcs']
                · intro hn
                  exact List.mem_cons_of_mem _ ((ih rest2 hrest2).2 (Option.map_eq_none'.mp hn))
              · simp only [if_neg hc]
                exact ⟨fun cs hcs => by simp at hcs, fun _ => List.mem_cons_self _ _⟩
          · simp only [if_neg h3]
            by_cases h4 : b ≤ 0xEF
            · simp only [if_pos h4]
              cases rest with
              | nil =>
                exact ⟨fun cs hcs => by simp at hcs, fun _ => List.mem_cons_self _ _⟩
              | cons b2 rest2 =>
                cases rest2 with
                | nil =>
                  exact ⟨fun cs hcs => by simp at hcs, fun _ => List.mem_cons_self _ _⟩
                | cons b3 rest3 =>
                  have hrest3 : rest3.length ≤ fuel := by simp at hb; omega
                  by_cases hc : isCont3 b b2 && isCont b3
                  · simp only [if_pos hc]
                    refine ⟨?_, ?_⟩
                    · intro cs hcs
                      rcases Option.map_eq_some'.mp hcs with ⟨cs', hcs', rfl⟩
                      rw [(ih rest3 hrest3).1 cs' hcs']
                    · intro hn
                      exact List.mem_cons_of_mem _
                        ((ih rest3 hrest3).2 (Option.map_eq_none'.mp hn))
                  · simp only [if_neg hc]
                    exact ⟨fun cs hcs => by simp at hcs, fun _ => List.mem_cons_self _ _⟩
            · simp only [if_neg h4]
              by_cases h5 : b ≤ 0xF4
              · simp only [if_pos h5]
                cases rest with
                | nil =>
                  exact ⟨fun cs hcs => by simp at hcs, fun _ => List.mem_cons_self _ _⟩
                | cons b2 rest2 =>
                  cases rest2 with
                  | nil =>
                    exact ⟨fun cs hcs => by simp at hcs, fun _ => List.mem_cons_self _ _⟩
                  | cons b3 rest3 =>
                    cases rest3 with
                    | nil =>
                      exact ⟨fun cs hcs => by simp at hcs, fun _ => List.mem_cons_self _ _⟩
                    | cons b4 rest4 =>
                      have hrest4 : rest4.length ≤ fuel := by simp at hb; omega
                      by_cases hc : isCont4 b b2 && isCont b3 && isCont b4
                      · simp only [if_pos hc]
                        refine ⟨?_, ?_⟩
                        · intro cs hcs
                          rcases Option.map_eq_some'.mp hcs with ⟨cs', hcs', rfl⟩
                          rw [(ih rest4 hrest4).1 cs' hcs']
                        · intro hn
                          exact List.mem_cons_of_mem _
                            ((ih rest4 hrest4).2 (Option.map_eq_none'.mp hn))
                      · simp only [if_neg hc]
                        exact ⟨fun cs hcs => by simp at hcs, fun _ => List.mem_cons_self _ _⟩
              · simp only [if_neg h5]
                exact ⟨fun cs hcs => by simp at hcs, fun _ => List.mem_cons_self _ _⟩

/-- The strict decoder succeeds exactly where the replacing decoder agrees
with it; where it fails the replacing decoder still returns, with at least
one replacement character — the read never fails solely due to encoding. -/
lemma utf8DecodeReplace_faithful (bs : List Nat) :
    (∀ cs, utf8Decode? bs = some cs → utf8DecodeReplace bs = cs) ∧
    (utf8Decode? bs = none → replChar ∈ utf8DecodeReplace bs) :=
  utf8F_spec bs.length bs le_rfl

/-! ## Payload construction (app.py lines 112-118 / 466)

```python
payload = { "textContent": content,
            "metadata": { "title": os.path.basename(fpath), "fullPath": fpath } }
```
-/

/-- `os.path.basename` on a POSIX path: everything after the last `/`. -/
def basenameChars (cs : List Char) : List Char :=
  (cs.reverse.takeWhile (fun c => c ≠ '/')).reverse

/-- `os.path.basename` lifted to strings. -/
def basename (s : String) : String := ⟨basenameChars s.data⟩

example : basename "a/b/c.txt" = "c.txt" := by decide
example : basename "c.txt" = "c.txt" := by decide

/-- The `metadata` object of the wire payload. -/
structure Metadata where
  title : String
  fullPath : String
  deriving Repr, DecidableEq

/-- The JSON payload `upload_file` posts for one file. -/
structure Payload where
  textContent : String
  metadata : Metadata
  deriving Repr, DecidableEq

/-- The payload dict literal of app.py line 466 / 112-118. -/
def buildPayload (content : String) (fpath : String) : Payload :=
  { textContent := content
    metadata := { title := basename fpath, fullPath := fpath } }

lemma takeWhile_append_stop {α : Type} (p : α → Bool) (l1 l2 : List α) (x : α)
    (h1 : ∀ c ∈ l1, p c) (h2 : p x = false) :
    (l1 ++ x :: l2).takeWhile p = l1 := by
  induction l1 with
  | nil => simp [List.takeWhile_cons, h2]
  | cons a l ih =>
    have ha : p a = true := h1 a (List.mem_cons_self a l)
    simp only [List.cons_append, List.takeWhile_cons, ha, if_true]
    rw [ih (fun c hc => h1 c (List.mem_cons_of_mem a hc))]

/-- On a path formed by `os.path.join`, `basename` recovers the file name
(which, being a file-system name, contains no separator). -/
lemma basename_join (d f : String) (hf : '/' ∉ f.data) :
    basename (d ++ "/" ++ f) = f := by
  unfold basename basenameChars
  have hd : (d ++ "/" ++ f).data = d.data ++ '/' :: f.data := by
    simp [String.data_append]
  rw [hd]
  have hrev : (d.data ++ '/' :: f.data).reverse = f.data.reverse ++ '/' :: d.data.reverse := by
    simp
  rw [hrev, takeWhile_append_stop _ _ _ _ ?_ (by simp)]
  · simp [String.ext_iff]
  · intro c hc
    simp only [decide_eq_true_eq, ne_eq]
    intro hcontra
    subst hcontra
    exact hf (List.mem_reverse.mp hc)

/-! ## Upload outcome classification (app.py lines 459-484 and 107-131)

`upload_file` / the CLI loop body:

```python
try:
    with open(fpath, ...) as f: content = f.read()   # may raise
    payload = ...
    resp = requests.post(...)                        # may raise
    if resp.status_code == 200: success_count += 1
    else: fail_count += 1                            # logs HTTP status + resp.text
except Exception as e:
    fail_count += 1                                  # logs str(e)
```

The environment's behaviour for one file is an `UploadResult`; the
classification the code performs on it is `classifyUpload`. -/

/-- What the outside world did for one file's upload attempt. -/
inductive UploadResult : Type where
  /-- `open`/`read` raised before any HTTP call (file vanished,
  permission denied, ...). -/
  | excRead (err : String)
  /-- `requests.post` raised (connection refused, timeout, DNS failure). -/
  | excPost (err : String)
  /-- The POST returned an HTTP response. -/
  | httpResp (status : Nat) (body : String)
  deriving Repr, DecidableEq

/-- The per-file outcome as recorded by the code (counter incremented and
log line written). -/
inductive UploadOutcome : Type where
  | success
  /-- Non-200 response: the log carries the status code and body text. -/
  | failureHttp (status : Nat) (body : String)
  /-- Raised exception: the log carries the error description. -/
  | failureExc (err : String)
  deriving Repr, DecidableEq

/-- The classification `upload_file` performs: status 200 → success
branch, any other status → failure with status and body, any raised
error → failure with the description. -/
def classifyUpload : UploadResult → UploadOutcome
  | .excRead e => .failureExc e
  | .excPost e => .failureExc e
  | .httpResp s b => if s = 200 then .success else .failureHttp s b

/-- Whether an outcome is the success branch. -/
def isSuccess : UploadOutcome → Bool
  | .success => true
  | _ => false

/-- How many times `requests.post` runs for the given environment
behaviour: the single call at line 467 (120 in the CLI), unless the read
raised first — there is no retry loop anywhere. -/
def httpAttempts : UploadResult → Nat
  | .excRead _ => 0
  | .excPost _ => 1
  | .httpResp _ _ => 1

/-! ## The sequential CLI loop (app.py lines 103-134) -/

/-- One iteration of `for fpath in all_files` acting on
`(success_count, fail_count)`: the success branch increments the first
counter, both failure branches increment the second. -/
def cliStep (r : UploadResult) (counts : Nat × Nat) : Nat × Nat :=
  match classifyUpload r with
  | .success => (counts.1 + 1, counts.2)
  | _ => (counts.1, counts.2 + 1)

/-- `embed_files_cli`'s upload loop: every enumerated file is processed in
order from zero counters; no branch leaves the loop. -/
def embedFilesCli (env : String → UploadResult) (files : List String) : Nat × Nat :=
  files.foldl (fun counts fp => cliStep (env fp) counts) (0, 0)

lemma embedFilesCli_foldl (env : String → UploadResult) (files : List String) :
    ∀ init : Nat × Nat,
      files.foldl (fun counts fp => cliStep (env fp) counts) init
        = (init.1 + (files.filter (fun fp => isSuccess (classifyUpload (env fp)))).length,
           init.2 + (files.filter (fun fp => !isSuccess (classifyUpload (env fp)))).length) := by
  induction files with
  | nil => intro init; simp
  | cons f fs ih =>
    intro init
    simp only [List.foldl_cons, List.filter_cons]
    rcases hcl : classifyUpload (env f) with _ | ⟨s, b⟩ | e
    · rw [ih]
      simp [cliStep, hcl, isSuccess, Prod.ext_iff]
      omega
    · rw [ih]
      simp [cliStep, hcl, isSuccess, Prod.ext_iff]
      omega
    · rw [ih]
      simp [cliStep, hcl, isSuccess, Prod.ext_iff]
      omega

/-- Closed form of the CLI loop: each counter counts exactly the files
whose own classification lands in that branch. -/
lemma embedFilesCli_counts (env : String → UploadResult) (files : List String) :
    embedFilesCli env files
      = ((files.filter (fun fp => isSuccess (classifyUpload (env fp)))).length,
         (files.filter (fun fp => !isSuccess (classifyUpload (env fp)))).length) := by
  unfold embedFilesCli
  rw [embedFilesCli_foldl]
  simp

lemma length_filter_add_length_filter_not {α : Type} (l : List α) (p : α → Bool) :
    (l.filter p).length + (l.filter (fun a => !p a)).length = l.length := by
  induction l with
  | nil => simp
  | cons a t ih => by_cases h : p a <;> simp [List.filter_cons, h] <;> omega

/-- C3 as stated is refuted by the read-failure case: when `open` raises,
`upload_file` makes zero HTTP attempts for that file, not exactly one
(the outcome is still a failure carrying the error description). -/
theorem upload_zero_attempts_on_read_error :
    httpAttempts (UploadResult.excRead "FileNotFoundError") ≠ 1 ∧
    httpAttempts (UploadResult.excRead "FileNotFoundError") = 0 ∧
    classifyUpload (UploadResult.excRead "FileNotFoundError")
      = UploadOutcome.failureExc "FileNotFoundError" := by
  exact ⟨by decide, by decide, by decide⟩

/-- C3 (amended): status 200 → success; any other status → failure
carrying the status and body; a raised transport or local I/O error →
failure carrying the description; at most one HTTP attempt per file, and
exactly one whenever the read did not raise; and a per-file failure never
aborts the run or affects other files: in the run each counter counts
exactly the files whose own classification lands in that branch. -/
theorem upload_unit_classification (r : UploadResult)
    (env : String → UploadResult) (files : List String) :
    (∀ b, classifyUpload (.httpResp 200 b) = .success) ∧
    (∀ s b, s ≠ 200 → classifyUpload (.httpResp s b) = .failureHttp s b) ∧
    (∀ e, classifyUpload (.excPost e) = .failureExc e) ∧
    (∀ e, classifyUpload (.excRead e) = .failureExc e) ∧
    httpAttempts r ≤ 1 ∧
    ((∀ e, r ≠ .excRead e) → httpAttempts r = 1) ∧
    (embedFilesCli env files).1
      = (files.filter (fun fp => isSuccess (classifyUpload (env fp)))).length ∧
    (embedFilesCli env files).2
      = (files.filter (fun fp => !isSuccess (classifyUpload (env fp)))).length := by
  refine ⟨fun b => by simp [classifyUpload], ?_, fun e => rfl, fun e => rfl, ?_, ?_, ?_, ?_⟩
  · intro s b hs
    simp [classifyUpload, hs]
  · cases r <;> simp [httpAttempts]
  · intro h
    cases r with
    | excRead e => exact absurd rfl (h e)
    | excPost e => rfl
    | httpResp s b => rfl
  · rw [embedFilesCli_counts]
  · rw [embedFilesCli_counts]

/-- Witness for `upload_unit_classification`: a 500 response on one file
classifies as a failure with status and body, made one HTTP attempt, and
counts once in `fail_count`. -/
theorem upload_unit_classification_witness :
    classifyUpload (UploadResult.httpResp 500 "oops") = UploadOutcome.failureHttp 500 "oops" ∧
    httpAttempts (UploadResult.httpResp 500 "oops") = 1 ∧
    (embedFilesCli (fun _ => UploadResult.httpResp 500 "oops") ["a"]).2 = 1 := by
  have h := upload_unit_classification (UploadResult.httpResp 500 "oops")
    (fun _ => UploadResult.httpResp 500 "oops") ["a"]
  refine ⟨h.2.1 500 "oops" (by decide), h.2.2.2.2.2.1 (fun e => by simp), ?_⟩
  rw [h.2.2.2.2.2.2.2]
  decide

/-- C4: the upload unit's read is lossy-safe — where strict decoding
succeeds the replacing decoder agrees with it, and where strict decoding
fails the replacing decoder still returns, with the placeholder present —
and the payload is exactly `{textContent: content, metadata: {title:
basename(path), fullPath: path}}`, the title recovering the file's name on
any joined path. -/
theorem upload_payload_and_decoding (bs : List Nat) (content fpath d f : String) :
    (∀ cs, utf8Decode? bs = some cs → utf8DecodeReplace bs = cs) ∧
    (utf8Decode? bs = none → replChar ∈ utf8DecodeReplace bs) ∧
    (buildPayload content fpath).textContent = content ∧
    (buildPayload content fpath).metadata.title = basename fpath ∧
    (buildPayload content fpath).metadata.fullPath = fpath ∧
    ('/' ∉ f.data → basename (d ++ "/" ++ f) = f) :=
  ⟨(utf8DecodeReplace_faithful bs).1, (utf8DecodeReplace_faithful bs).2,
    rfl, rfl, rfl, basename_join d f⟩

/-- Witness for `upload_payload_and_decoding`: an invalid byte decodes to
the placeholder rather than failing, a valid byte decodes faithfully, and
the title of a joined path is the file name. -/
theorem upload_payload_and_decoding_witness :
    utf8Decode? [0xFF] = none ∧ replChar ∈ utf8DecodeReplace [0xFF] ∧
    utf8Decode? [0x68] = some ['h'] ∧ utf8DecodeReplace [0x68] = ['h'] ∧
    basename ("dir" ++ "/" ++ "file.txt") = "file.txt" := by
  have h := upload_payload_and_decoding [0xFF] "c" "p" "dir" "file.txt"
  have h2 := upload_payload_and_decoding [0x68] "c" "p" "dir" "file.txt"
  exact ⟨by decide, h.2.1 (by decide), by decide, h2.1 ['h'] (by decide),
    h.2.2.2.2.2 (by decide)⟩

/-! ## Shared state touched by one `upload_file` invocation
(app.py lines 459-484 and 61-63)

`upload_file` closes over `success_count` / `fail_count` (declared
`nonlocal`), reads `app.stop_requested` and `app.app_config`, and calls
`log_message`, which appends to the process-wide `_memory_logs` list.
One invocation is therefore a transformer of this shared state. -/

/-- The process-global and closure-shared mutable state `upload_file`
can reach. -/
structure SharedState where
  success_count : Nat
  fail_count : Nat
  memory_logs : List String
  stop_requested : Bool
  app_config : Config
  deriving Repr, DecidableEq

/-- Python `str.upper()` (ASCII part suffices for the level names used). -/
def pyUpper (s : String) : String := ⟨s.data.map Char.toUpper⟩

/-- `log_message` (app.py lines 61-63): append `f"{level.upper()}: {msg}"`
to the process-wide `_memory_logs` (the logging-module call aside). -/
def log_message (level msg : String) (logs : List String) : List String :=
  logs ++ [pyUpper level ++ ": " ++ msg]

/-- One invocation of `upload_file` (app.py lines 459-484) on shared state,
for file `fpath`, the environment's behaviour given by `r`. -/
def upload_file (st : SharedState) (fpath : String) (r : UploadResult) : SharedState :=
  if st.stop_requested then st
  else
    match classifyUpload r with
    | .success =>
        { st with
            success_count := st.success_count + 1
            memory_logs := log_message "info" ("Uploaded: " ++ fpath) st.memory_logs }
    | .failureHttp s b =>
        { st with
            fail_count := st.fail_count + 1
            memory_logs := log_message "error"
              ("FAILED uploading: " ++ fpath ++ " (HTTP " ++ toString s ++ "). Response: " ++ b)
              st.memory_logs }
    | .failureExc e =>
        { st with
            fail_count := st.fail_count + 1
            memory_logs := log_message "error"
              ("Exception reading/sending " ++ fpath ++ ": " ++ e) st.memory_logs }

/-- A concrete shared state for evaluating the `upload_file` theorems. -/
def sharedState0 : SharedState :=
  { success_count := 0
    fail_count := 0
    memory_logs := []
    stop_requested := false
    app_config := { api_url := "http://x", api_token := "t" } }

/-- C5 as stated is false: one `upload_file` invocation does modify global
and shared mutable state — it increments a closure-shared counter and
appends to the process-wide `_memory_logs` buffer. -/
theorem upload_file_mutates_shared_state :
    upload_file sharedState0 "a" (UploadResult.httpResp 200 "") ≠ sharedState0 ∧
    (upload_file sharedState0 "a" (UploadResult.httpResp 200 "")).success_count = 1 ∧
    (upload_file sharedState0 "a" (UploadResult.httpResp 200 "")).memory_logs.length = 1 := by
  exact ⟨by decide, by decide, by decide⟩

/-- C5 (amended): an invocation's effect on shared state is confined to
incrementing exactly one of the two shared counters and appending one
line to the global log buffer (and nothing at all when the stop flag was
already set); the configuration and the stop flag are never written by
it. -/
theorem upload_file_frame (st : SharedState) (fpath : String) (r : UploadResult) :
    (upload_file st fpath r).app_config = st.app_config ∧
    (upload_file st fpath r).stop_requested = st.stop_requested ∧
    (st.stop_requested = true → upload_file st fpath r = st) ∧
    (st.stop_requested = false →
      (∃ line, (upload_file st fpath r).memory_logs = st.memory_logs ++ [line]) ∧
      (((upload_file st fpath r).success_count = st.success_count + 1 ∧
        (upload_file st fpath r).fail_count = st.fail_count) ∨
       ((upload_file st fpath r).success_count = st.success_count ∧
        (upload_file st fpath r).fail_count = st.fail_count + 1))) := by
  by_cases hs : st.stop_requested
  · simp [upload_file, hs]
  · rcases hcl : classifyUpload r with _ | ⟨s, b⟩ | e <;>
      simp [upload_file, hs, hcl, log_message]

/-- Witness for `upload_file_frame`: a transport error appends one log
line and bumps only `fail_count`. -/
theorem upload_file_frame_witness :
    sharedState0.stop_requested = false ∧
    (∃ line, (upload_file sharedState0 "a" (UploadResult.excPost "timeout")).memory_logs
        = sharedState0.memory_logs ++ [line]) ∧
    (upload_file sharedState0 "a" (UploadResult.excPost "timeout")).fail_count
        = sharedState0.fail_count + 1 := by
  have h := upload_file_frame sharedState0 "a" (UploadResult.excPost "timeout")
  exact ⟨by decide, (h.2.2.2 (by decide)).1, by decide⟩

/-! ## The threaded coordinator (app.py lines 430-511)

`embed_files_threaded` snapshots `all_files`, fixes
`total_files = len(all_files)` (and the progress-bar maximum), then
submits `upload_file` for every path to a thread pool.  Each worker
checks `app.stop_requested` once on entry, returning immediately if it
is set, and otherwise produces one classified outcome, incrementing one
counter as its last action.  The main thread iterates
`as_completed(futures)`, breaking out if `stop_requested` is set and
calling `progress_bar.step()` otherwise.  Leaving the
`with ThreadPoolExecutor()` block joins every worker; only then does the
terminal branch run once (summary log, bar filled to `total_files` when
not stopped).  `stop_embedding` (lines 421-427) sets
`stop_requested = True`; nothing during a run sets it back (only
`start_embedding` does, and it refuses while a run is in progress).

One run is modelled as a small-step transition system; a step is one
atomic action of some thread, and `env i` fixes what the environment
would do for task `i`'s upload. -/

/-- Execution status of one submitted task.  `consumed` on a finished
outcome records that the `as_completed` loop has taken that future (and
stepped the bar for it). -/
inductive TaskStatus : Type where
  | pending
  | running
  | doneOutcome (oc : UploadOutcome) (consumed : Bool)
  | doneSkipped
  deriving Repr, DecidableEq

/-- The worker for this task has returned (with an outcome, or skipped). -/
def TaskStatus.isDone : TaskStatus → Bool
  | .doneOutcome _ _ => true
  | .doneSkipped => true
  | _ => false

/-- The worker produced a classified outcome. -/
def TaskStatus.isOutcome : TaskStatus → Bool
  | .doneOutcome _ _ => true
  | _ => false

/-- The outcome was a success / a failure. -/
def TaskStatus.isSuccessOutcome : TaskStatus → Bool
  | .doneOutcome oc _ => isSuccess oc
  | _ => false

def TaskStatus.isFailOutcome : TaskStatus → Bool
  | .doneOutcome oc _ => !isSuccess oc
  | _ => false

/-- The `as_completed` loop has consumed this future. -/
def TaskStatus.isConsumed : TaskStatus → Bool
  | .doneOutcome _ c => c
  | _ => false

/-- The mutable state of one threaded run. -/
structure RunState where
  /-- `total_files`, fixed when the snapshot is taken. -/
  total : Nat
  /-- One status per enumerated file, by position in `all_files`. -/
  tasks : List TaskStatus
  success_count : Nat
  fail_count : Nat
  /-- `progress_bar['value']`. -/
  bar : Nat
  /-- `app.stop_requested`. -/
  stop : Bool
  /-- The `as_completed` loop exited via `break`. -/
  broken : Bool
  /-- The terminal branch after the `with` block has run. -/
  summaryDone : Bool
  deriving Repr, DecidableEq

/-- The run state right after the snapshot and before any dispatch:
`start_embedding` cleared `stop_requested`, counters and bar are zero. -/
def initRun (files : List String) : RunState :=
  { total := files.length
    tasks := files.map (fun _ => TaskStatus.pending)
    success_count := 0
    fail_count := 0
    bar := 0
    stop := false
    broken := false
    summaryDone := false }

/-- The terminal result as the code reports it: counters of the summary
line, and which terminal branch ran (`app.stop_requested`). -/
structure RunSummary where
  total : Nat
  succeeded : Nat
  failed : Nat
  cancelled : Bool
  deriving Repr, DecidableEq

/-- The summary read off a run state. -/
def mkSummary (s : RunState) : RunSummary :=
  { total := s.total
    succeeded := s.success_count
    failed := s.fail_count
    cancelled := s.stop }

/-- One atomic action of some thread of `embed_files_threaded`,
`stop_embedding` included. -/
inductive Step (env : Nat → UploadResult) : RunState → RunState → Prop where
  /-- A worker enters `upload_file` while the stop flag is clear: the
  entry check passes and the upload is under way. -/
  | beginWork (s : RunState) (i : Nat)
      (hp : s.tasks[i]? = some .pending) (hstop : s.stop = false) :
      Step env s { s with tasks := s.tasks.set i .running }
  /-- A worker enters `upload_file` after `stop_requested` was set: it
  returns at once and the task is abandoned. -/
  | beginSkip (s : RunState) (i : Nat)
      (hp : s.tasks[i]? = some .pending) (hstop : s.stop = true) :
      Step env s { s with tasks := s.tasks.set i .doneSkipped }
  /-- A running worker finishes: its outcome is classified and the
  matching counter incremented (the worker's last action). -/
  | finishWork (s : RunState) (i : Nat)
      (hr : s.tasks[i]? = some .running) :
      Step env s
        { s with
            tasks := s.tasks.set i (.doneOutcome (classifyUpload (env i)) false)
            success_count :=
              if isSuccess (classifyUpload (env i)) then s.success_count + 1
              else s.success_count
            fail_count :=
              if isSuccess (classifyUpload (env i)) then s.fail_count
              else s.fail_count + 1 }
  /-- The main loop takes one completed future off `as_completed` with the
  stop flag clear and steps the progress bar. -/
  | consumeFuture (s : RunState) (i : Nat) (oc : UploadOutcome)
      (hd : s.tasks[i]? = some (.doneOutcome oc false))
      (hnb : s.broken = false) (hns : s.summaryDone = false) (hstop : s.stop = false) :
      Step env s
        { s with
            tasks := s.tasks.set i (.doneOutcome oc true)
            bar := s.bar + 1 }
  /-- The main loop observes the stop flag at the top of an iteration and
  breaks. -/
  | breakLoop (s : RunState) (hstop : s.stop = true) (hnb : s.broken = false) :
      Step env s { s with broken := true }
  /-- `stop_embedding` (app.py lines 421-427): the user requests
  cancellation; the only write to `stop_requested` during a run, and it
  writes `True`. -/
  | requestStop (s : RunState) :
      Step env s { s with stop := true }
  /-- Leaving the `with` block joined every worker; the terminal branch
  runs once: summary log in the non-stopped case (filling the bar),
  stopped message otherwise. -/
  | reportSummary (s : RunState)
      (hall : ∀ st ∈ s.tasks, st.isDone = true) (hnd : s.summaryDone = false) :
      Step env s
        { s with
            summaryDone := true
            bar := if s.stop then s.bar else s.total }

/-- Reachability through any interleaving of the actions. -/
def Reaches (env : Nat → UploadResult) : RunState → RunState → Prop :=
  Relation.ReflTransGen (Step env)

lemma countP_set_same {τ : Type} (p : τ → Bool) :
    ∀ (l : List τ) (i : Nat) (a b : τ), l[i]? = some a → p a = p b →
      (l.set i b).countP p = l.countP p := by
  intro l
  induction l with
  | nil => intro i a b h _; simp at h
  | cons c t ih =>
    intro i a b h hab
    cases i with
    | zero =>
      simp only [List.getElem?_cons_zero, Option.some.injEq] at h
      subst h
      simp [List.countP_cons, hab]
    | succ n =>
      simp only [List.getElem?_cons_succ] at h
      simp [List.countP_cons, ih n a b h hab]

lemma countP_set_flip {τ : Type} (p : τ → Bool) :
    ∀ (l : List τ) (i : Nat) (a b : τ), l[i]? = some a → p a = false → p b = true →
      (l.set i b).countP p = l.countP p + 1 := by
  intro l
  induction l with
  | nil => intro i a b h _ _; simp at h
  | cons c t ih =>
    intro i a b h ha hb
    cases i with
    | zero =>
      simp only [List.getElem?_cons_zero, Option.some.injEq] at h
      subst h
      simp [List.countP_cons, ha, hb]
    | succ n =>
      simp only [List.getElem?_cons_succ] at h
      simp only [List.set_cons_succ, List.countP_cons, ih n a b h ha hb]
      omega

lemma countP_succ_add_fail (tasks : List TaskStatus) :
    tasks.countP TaskStatus.isSuccessOutcome + tasks.countP TaskStatus.isFailOutcome
      = tasks.countP TaskStatus.isOutcome := by
  induction tasks with
  | nil => simp
  | cons st t ih =>
    simp only [List.countP_cons]
    cases st with
    | pending =>
      simp [TaskStatus.isSuccessOutcome, TaskStatus.isFailOutcome, TaskStatus.isOutcome, ih]
    | running =>
      simp [TaskStatus.isSuccessOutcome, TaskStatus.isFailOutcome, TaskStatus.isOutcome, ih]
    | doneSkipped =>
      simp [TaskStatus.isSuccessOutcome, TaskStatus.isFailOutcome, TaskStatus.isOutcome, ih]
    | doneOutcome oc c =>
      by_cases h : isSuccess oc <;>
        simp [TaskStatus.isSuccessOutcome, TaskStatus.isFailOutcome, TaskStatus.isOutcome,
          h, ih] <;>
        omega

lemma isConsumed_imp_isOutcome (st : TaskStatus) :
    st.isConsumed = true → st.isOutcome = true := by
  cases st <;> simp [TaskStatus.isConsumed, TaskStatus.isOutcome]

/-- The state invariant every reachable state of a threaded run
satisfies. -/
structure RunInv (s : RunState) : Prop where
  len : s.tasks.length = s.total
  succ_eq : s.success_count = s.tasks.countP TaskStatus.isSuccessOutcome
  fail_eq : s.fail_count = s.tasks.countP TaskStatus.isFailOutcome
  noSkip : s.stop = false → ∀ st ∈ s.tasks, st ≠ TaskStatus.doneSkipped
  bar_eq : s.summaryDone = false → s.bar = s.tasks.countP TaskStatus.isConsumed
  barLe : s.bar ≤ s.success_count + s.fail_count
  sumAll : s.summaryDone = true → ∀ st ∈ s.tasks, st.isDone = true

lemma runInv_init (files : List String) : RunInv (initRun files) := by
  have hz : ∀ p : TaskStatus → Bool, p TaskStatus.pending = false →
      (files.map (fun _ => TaskStatus.pending)).countP p = 0 := by
    intro p hp
    apply List.countP_eq_zero.mpr
    intro a ha
    rcases List.mem_map.mp ha with ⟨_, _, rfl⟩
    simp [hp]
  simp only [initRun]
  refine ⟨?_, ?_, ?_, ?_, ?_, ?_, ?_⟩
  · simp
  · exact (hz _ rfl).symm
  · exact (hz _ rfl).symm
  · intro _ st hst
    rcases List.mem_map.mp hst with ⟨_, _, rfl⟩
    simp
  · intro _
    exact (hz _ rfl).symm
  · exact Nat.zero_le _
  · intro h
    exact absurd h (by simp)

lemma runInv_step {env : Nat → UploadResult} {s s' : RunState}
    (hstep : Step env s s') (hinv : RunInv s) : RunInv s' := by
  obtain ⟨len, succ_eq, fail_eq, noSkip, bar_eq, barLe, sumAll⟩ := hinv
  cases hstep with
  | beginWork i hp hstop =>
    refine ⟨?_, ?_, ?_, ?_, ?_, barLe, ?_⟩
    · show (s.tasks.set i TaskStatus.running).length = s.total
      rw [List.length_set]; exact len
    · show s.success_count = (s.tasks.set i TaskStatus.running).countP _
      rw [countP_set_same TaskStatus.isSuccessOutcome s.tasks i TaskStatus.pending
        TaskStatus.running hp rfl]
      exact succ_eq
    · show s.fail_count = (s.tasks.set i TaskStatus.running).countP _
      rw [countP_set_same TaskStatus.isFailOutcome s.tasks i TaskStatus.pending
        TaskStatus.running hp rfl]
      exact fail_eq
    · intro h st hst
      rcases List.mem_or_eq_of_mem_set hst with h1 | h1
      · exact noSkip h st h1
      · subst h1; simp
    · intro h
      show s.bar = (s.tasks.set i TaskStatus.running).countP _
      rw [countP_set_same TaskStatus.isConsumed s.tasks i TaskStatus.pending
        TaskStatus.running hp rfl]
      exact bar_eq h
    · intro h
      exact absurd (sumAll h TaskStatus.pending (List.getElem?_mem hp))
        (by simp [TaskStatus.isDone])
  | beginSkip i hp hstop =>
    refine ⟨?_, ?_, ?_, ?_, ?_, barLe, ?_⟩
    · show (s.tasks.set i TaskStatus.doneSkipped).length = s.total
      rw [List.length_set]; exact len
    · show s.success_count = (s.tasks.set i TaskStatus.doneSkipped).countP _
      rw [countP_set_same TaskStatus.isSuccessOutcome s.tasks i TaskStatus.pending
        TaskStatus.doneSkipped hp rfl]
      exact succ_eq
    · show s.fail_count = (s.tasks.set i TaskStatus.doneSkipped).countP _
      rw [countP_set_same TaskStatus.isFailOutcome s.tasks i TaskStatus.pending
        TaskStatus.doneSkipped hp rfl]
      exact fail_eq
    · intro h
      rw [hstop] at h
      exact absurd h (by simp)
    · intro h
      show s.bar = (s.tasks.set i TaskStatus.doneSkipped).countP _
      rw [countP_set_same TaskStatus.isConsumed s.tasks i TaskStatus.pending
        TaskStatus.doneSkipped hp rfl]
      exact bar_eq h
    · intro h
      exact absurd (sumAll h TaskStatus.pending (List.getElem?_mem hp))
        (by simp [TaskStatus.isDone])
  | finishWork i hr =>
    refine ⟨?_, ?_, ?_, ?_, ?_, ?_, ?_⟩
    · show (s.tasks.set i _).length = s.total
      rw [List.length_set]; exact len
    · by_cases hS : isSuccess (classifyUpload (env i))
      · show (if isSuccess (classifyUpload (env i)) then s.success_count + 1
            else s.success_count) = _
        rw [if_pos hS,
          countP_set_flip TaskStatus.isSuccessOutcome s.tasks i TaskStatus.running
            (TaskStatus.doneOutcome (classifyUpload (env i)) false) hr rfl
            (by simp [TaskStatus.isSuccessOutcome, hS]), succ_eq]
      · show (if isSuccess (classifyUpload (env i)) then s.success_count + 1
            else s.success_count) = _
        rw [if_neg hS,
          countP_set_same TaskStatus.isSuccessOutcome s.tasks i TaskStatus.running
            (TaskStatus.doneOutcome (classifyUpload (env i)) false) hr
            (by simp [TaskStatus.isSuccessOutcome, Bool.eq_false_iff.mpr hS])]
        exact succ_eq
    · by_cases hS : isSuccess (classifyUpload (env i))
      · show (if isSuccess (classifyUpload (env i)) then s.fail_count
            else s.fail_count + 1) = _
        rw [if_pos hS,
          countP_set_same TaskStatus.isFailOutcome s.tasks i TaskStatus.running
            (TaskStatus.doneOutcome (classifyUpload (env i)) false) hr
            (by simp [TaskStatus.isFailOutcome, hS])]
        exact fail_eq
      · show (if isSuccess (classifyUpload (env i)) then s.fail_count
            else s.fail_count + 1) = _
        rw [if_neg hS,
          countP_set_flip TaskStatus.isFailOutcome s.tasks i TaskStatus.running
            (TaskStatus.doneOutcome (classifyUpload (env i)) false) hr rfl
            (by simp [TaskStatus.isFailOutcome, Bool.eq_false_iff.mpr hS]), fail_eq]
    · intro h st hst
      rcases List.mem_or_eq_of_mem_set hst with h1 | h1
      · exact noSkip h st h1
      · subst h1; simp
    · intro h
      show s.bar = (s.tasks.set i _).countP _
      rw [countP_set_same TaskStatus.isConsumed s.tasks i TaskStatus.running
        (TaskStatus.doneOutcome (classifyUpload (env i)) false) hr rfl]
      exact bar_eq h
    · show s.bar ≤ _
      by_cases hS : isSuccess (classifyUpload (env i)) <;> simp [hS] <;> omega
    · intro h
      exact absurd (sumAll h TaskStatus.running (List.getElem?_mem hr))
        (by simp [TaskStatus.isDone])
  | consumeFuture i oc hd hnb hns hstop =>
    refine ⟨?_, ?_, ?_, ?_, ?_, ?_, ?_⟩
    · show (s.tasks.set i _).length = s.total
      rw [List.length_set]; exact len
    · show s.success_count = (s.tasks.set i _).countP _
      rw [countP_set_same TaskStatus.isSuccessOutcome s.tasks i
        (TaskStatus.doneOutcome oc false) (TaskStatus.doneOutcome oc true) hd rfl]
      exact succ_eq
    · show s.fail_count = (s.tasks.set i _).countP _
      rw [countP_set_same TaskStatus.isFailOutcome s.tasks i
        (TaskStatus.doneOutcome oc false) (TaskStatus.doneOutcome oc true) hd rfl]
      exact fail_eq
    · intro h st hst
      rcases List.mem_or_eq_of_mem_set hst with h1 | h1
      · exact noSkip h st h1
      · subst h1; simp
    · intro _
      show s.bar + 1 = (s.tasks.set i _).countP _
      rw [countP_set_flip TaskStatus.isConsumed s.tasks i
        (TaskStatus.doneOutcome oc false) (TaskStatus.doneOutcome oc true) hd rfl rfl,
        bar_eq hns]
    · show s.bar + 1 ≤ s.success_count + s.fail_count
      have h1 : s.bar + 1 = (s.tasks.set i (.doneOutcome oc true)).countP
          TaskStatus.isConsumed := by
        rw [countP_set_flip TaskStatus.isConsumed s.tasks i
          (TaskStatus.doneOutcome oc false) (TaskStatus.doneOutcome oc true) hd rfl rfl,
          bar_eq hns]
      have h2 : (s.tasks.set i (.doneOutcome oc true)).countP TaskStatus.isConsumed
          ≤ (s.tasks.set i (.doneOutcome oc true)).countP TaskStatus.isOutcome :=
        List.countP_mono_left (fun a _ => isConsumed_imp_isOutcome a)
      have h3 : (s.tasks.set i (.doneOutcome oc true)).countP TaskStatus.isOutcome
          = s.tasks.countP TaskStatus.isOutcome :=
        countP_set_same TaskStatus.isOutcome s.tasks i (TaskStatus.doneOutcome oc false)
          (TaskStatus.doneOutcome oc true) hd rfl
      have h4 := countP_succ_add_fail s.tasks
      rw [succ_eq, fail_eq]
      omega
    · intro h
      exact absurd (hns ▸ h) (by simp)
  | breakLoop hstop hnb =>
    exact ⟨len, succ_eq, fail_eq, noSkip, bar_eq, barLe, sumAll⟩
  | requestStop =>
    refine ⟨len, succ_eq, fail_eq, ?_, bar_eq, barLe, sumAll⟩
    intro h
    exact absurd h (by simp)
  | reportSummary hall hnd =>
    refine ⟨len, succ_eq, fail_eq, noSkip, ?_, ?_, fun _ => hall⟩
    · intro h
      exact absurd h (by simp)
    · show (if s.stop then s.bar else s.total) ≤ s.success_count + s.fail_count
      by_cases hstp : s.stop
      · rw [if_pos hstp]; exact barLe
      · rw [if_neg hstp]
        have hout : ∀ st ∈ s.tasks, TaskStatus.isOutcome st = true := by
          intro st hst
          have h1 := hall st hst
          have h2 := noSkip (by simpa using hstp) st hst
          cases st <;> simp_all [TaskStatus.isDone, TaskStatus.isOutcome]
        have h3 : s.tasks.countP TaskStatus.isOutcome = s.tasks.length :=
          List.countP_eq_length.mpr hout
        have h4 := countP_succ_add_fail s.tasks
        rw [succ_eq, fail_eq]
        omega

lemma runInv_reaches {env : Nat → UploadResult} {s s' : RunState}
    (h : Reaches env s s') (hinv : RunInv s) : RunInv s' := by
  induction h with
  | refl => exact hinv
  | tail _ hstep ih => exact runInv_step hstep ih

lemma step_stop_mono {env : Nat → UploadResult} {s s' : RunState}
    (h : Step env s s') (hs : s.stop = true) : s'.stop = true := by
  cases h <;> simp [hs]

lemma reaches_stop_mono {env : Nat → UploadResult} {s s' : RunState}
    (h : Reaches env s s') (hs : s.stop = true) : s'.stop = true := by
  induction h with
  | refl => exact hs
  | tail _ hstep ih => exact step_stop_mono hstep ih

lemma step_total_eq {env : Nat → UploadResult} {s s' : RunState}
    (h : Step env s s') : s'.total = s.total := by
  cases h <;> rfl

lemma reaches_total_eq {env : Nat → UploadResult} {s s' : RunState}
    (h : Reaches env s s') : s'.total = s.total := by
  induction h with
  | refl => rfl
  | tail _ hstep ih => rw [step_total_eq hstep, ih]

lemma step_pending_stays {env : Nat → UploadResult} {s s' : RunState}
    (h : Step env s s') (i : Nat) (hstop : s.stop = true)
    (hi : s.tasks[i]? = some TaskStatus.pending ∨ s.tasks[i]? = some TaskStatus.doneSkipped) :
    s'.tasks[i]? = some TaskStatus.pending ∨ s'.tasks[i]? = some TaskStatus.doneSkipped := by
  cases h with
  | beginWork j hp hst => rw [hstop] at hst; exact absurd hst (by simp)
  | beginSkip j hp hst =>
    show (s.tasks.set j TaskStatus.doneSkipped)[i]? = _ ∨
      (s.tasks.set j TaskStatus.doneSkipped)[i]? = _
    by_cases hij : j = i
    · subst hij
      right
      rw [List.getElem?_set_self (List.getElem?_eq_some.mp hp).1]
    · rw [List.getElem?_set_ne hij]
      exact hi
  | finishWork j hr =>
    show (s.tasks.set j _)[i]? = _ ∨ (s.tasks.set j _)[i]? = _
    by_cases hij : j = i
    · subst hij
      rcases hi with hi | hi <;> rw [hr] at hi <;> exact absurd hi (by simp)
    · rw [List.getElem?_set_ne hij]
      exact hi
  | consumeFuture j oc hd hnb hns hst =>
    rw [hstop] at hst; exact absurd hst (by simp)
  | breakLoop hst hnb => exact hi
  | requestStop => exact hi
  | reportSummary hall hnd => exact hi

lemma reaches_pending_stays {env : Nat → UploadResult} {s s' : RunState}
    (h : Reaches env s s') (i : Nat) (hstop : s.stop = true)
    (hp : s.tasks[i]? = some TaskStatus.pending) :
    s'.tasks[i]? = some TaskStatus.pending ∨ s'.tasks[i]? = some TaskStatus.doneSkipped := by
  induction h with
  | refl => exact Or.inl hp
  | tail h1 hstep ih => exact step_pending_stays hstep i (reaches_stop_mono h1 hstop) ih

/-! ## A concrete run for evaluating the coordinator theorems -/

/-- A one-file snapshot: the walk of a root containing only `a.txt`. -/
def filesW : List String := walkFiles "r" [] (DirTree.node ["a.txt"] DirForest.nil)

/-- An environment answering 200 to every upload. -/
def envW : Nat → UploadResult := fun _ => UploadResult.httpResp 200 "ok"

/-- After the single worker entered `upload_file` (stop flag clear). -/
def runW1 : RunState :=
  { total := 1, tasks := [TaskStatus.running], success_count := 0, fail_count := 0,
    bar := 0, stop := false, broken := false, summaryDone := false }

/-- After the worker finished with a 200: counter incremented, bar not
yet stepped. -/
def runW2 : RunState :=
  { total := 1, tasks := [TaskStatus.doneOutcome UploadOutcome.success false],
    success_count := 1, fail_count := 0,
    bar := 0, stop := false, broken := false, summaryDone := false }

/-- After the `as_completed` loop consumed the future and stepped the bar. -/
def runW3 : RunState :=
  { total := 1, tasks := [TaskStatus.doneOutcome UploadOutcome.success true],
    success_count := 1, fail_count := 0,
    bar := 1, stop := false, broken := false, summaryDone := false }

/-- After the terminal summary branch ran. -/
def runW : RunState :=
  { total := 1, tasks := [TaskStatus.doneOutcome UploadOutcome.success true],
    success_count := 1, fail_count := 0,
    bar := 1, stop := false, broken := false, summaryDone := true }

/-- The initial one-file state with `stop_requested` already set. -/
def runWStop : RunState :=
  { total := 1, tasks := [TaskStatus.pending], success_count := 0, fail_count := 0,
    bar := 0, stop := true, broken := false, summaryDone := false }

/-- The state after the worker entered and skipped under the stop flag. -/
def runWSkip : RunState :=
  { total := 1, tasks := [TaskStatus.doneSkipped], success_count := 0, fail_count := 0,
    bar := 0, stop := true, broken := false, summaryDone := false }

lemma step_runW1 : Step envW (initRun filesW) runW1 :=
  Step.beginWork (initRun filesW) 0 rfl rfl

lemma step_runW2 : Step envW runW1 runW2 :=
  Step.finishWork runW1 0 rfl

lemma step_runW3 : Step envW runW2 runW3 :=
  Step.consumeFuture runW2 0 UploadOutcome.success rfl rfl rfl rfl

lemma step_runW4 : Step envW runW3 runW :=
  Step.reportSummary runW3 (by decide) rfl

lemma reaches_runW2 : Reaches envW (initRun filesW) runW2 :=
  Relation.ReflTransGen.tail
    (Relation.ReflTransGen.tail Relation.ReflTransGen.refl step_runW1) step_runW2

lemma reaches_runW : Reaches envW (initRun filesW) runW :=
  Relation.ReflTransGen.tail
    (Relation.ReflTransGen.tail reaches_runW2 step_runW3) step_runW4

lemma step_runWSkip : Step envW runWStop runWSkip :=
  Step.beginSkip runWStop 0 rfl rfl

/-- C2: in every run in which cancellation is never requested, the final
counts reported at completion satisfy succeeded + failed = total, and
total equals the number of file paths the enumeration produced; likewise
in the sequential CLI loop every enumerated file lands in exactly one of
the two counters. -/
theorem run_final_counts (env : Nat → UploadResult) (envCli : String → UploadResult)
    (root : String) (ign : List String) (t : DirTree) (filesCli : List String)
    (s : RunState)
    (h : Reaches env (initRun (walkFiles root ign t)) s)
    (hnostop : s.stop = false) (hsum : s.summaryDone = true) :
    (s.success_count + s.fail_count = s.total ∧
      s.total = (walkFiles root ign t).length) ∧
    (embedFilesCli envCli filesCli).1 + (embedFilesCli envCli filesCli).2
      = filesCli.length := by
  have hinv := runInv_reaches h (runInv_init _)
  constructor
  · constructor
    · have hall := hinv.sumAll hsum
      have hnos := hinv.noSkip hnostop
      have hout : ∀ st ∈ s.tasks, TaskStatus.isOutcome st = true := by
        intro st hst
        have h1 := hall st hst
        have h2 := hnos st hst
        cases st <;> simp_all [TaskStatus.isDone, TaskStatus.isOutcome]
      have h3 : s.tasks.countP TaskStatus.isOutcome = s.tasks.length :=
        List.countP_eq_length.mpr hout
      have h4 := countP_succ_add_fail s.tasks
      have h5 := hinv.len
      rw [hinv.succ_eq, hinv.fail_eq]
      omega
    · have ht := reaches_total_eq h
      simpa [initRun] using ht
  · rw [embedFilesCli_counts]
    exact length_filter_add_length_filter_not filesCli _

/-- Witness for `run_final_counts`: the complete one-file run with a 200
response reports 1 + 0 = 1 = number of enumerated files. -/
theorem run_final_counts_witness :
    runW.success_count + runW.fail_count = runW.total ∧
    runW.total = filesW.length ∧ filesW.length = 1 := by
  have h := run_final_counts envW (fun _ => UploadResult.httpResp 200 "")
    "r" [] (DirTree.node ["a.txt"] DirForest.nil) [] runW reaches_runW rfl rfl
  exact ⟨h.1.1, h.1.2, by decide⟩

/-- C6's conjunct "succeeded + failed == completed at every observation
point" fails on the code: in the reachable state `runW2` the worker has
incremented its counter but the main loop has not yet stepped the
progress bar (the completed count the code maintains), so
succeeded + failed = 1 while the completed count is still 0; the counter
increment and the bar step are not one atomic action. -/
theorem counters_outrun_completed :
    Reaches envW (initRun filesW) runW2 ∧
    runW2.success_count + runW2.fail_count = 1 ∧ runW2.bar = 0 :=
  ⟨reaches_runW2, rfl, rfl⟩

/-- C6 (amended): at every reachable observation point,
completed (progress-bar value) ≤ succeeded + failed ≤ total — the bar may
lag the counters because a worker's counter increment precedes the main
loop's bar step — and the cancelled flag is monotonic: once
`stop_requested` is true it remains true in every later state of the
run. -/
theorem run_state_invariants (env : Nat → UploadResult) (files : List String)
    (s s' : RunState) (h : Reaches env (initRun files) s)
    (h2 : Reaches env s s') :
    s.bar ≤ s.success_count + s.fail_count ∧
    s.success_count + s.fail_count ≤ s.total ∧
    s.bar ≤ s.total ∧
    (s.stop = true → s'.stop = true) := by
  have hinv := runInv_reaches h (runInv_init files)
  have hle : s.success_count + s.fail_count ≤ s.total := by
    have h4 := countP_succ_add_fail s.tasks
    have h5 : s.tasks.countP TaskStatus.isOutcome ≤ s.tasks.length :=
      List.countP_le_length _
    have h6 := hinv.len
    rw [hinv.succ_eq, hinv.fail_eq]
    omega
  exact ⟨hinv.barLe, hle, le_trans hinv.barLe hle, reaches_stop_mono h2⟩

/-- Witness for `run_state_invariants` at the reachable state `runW2`. -/
theorem run_state_invariants_witness :
    runW2.bar ≤ runW2.success_count + runW2.fail_count ∧
    runW2.success_count + runW2.fail_count ≤ runW2.total := by
  have h := run_state_invariants envW filesW runW2 runW2 reaches_runW2
    Relation.ReflTransGen.refl
  exact ⟨h.1, h.2.1⟩

/-- C7: once cancellation is requested, a task still pending at that
moment is never started or uploaded afterwards — at every later point it
is still pending or abandoned as skipped — while a task already running
may still finish naturally with its outcome; and every state from the
request on (hence the final summary) reports cancelled = true. -/
theorem cancellation_blocks_undispatched (env : Nat → UploadResult)
    (s s' : RunState) (i : Nat)
    (hstop : s.stop = true) (hp : s.tasks[i]? = some TaskStatus.pending)
    (h : Reaches env s s') :
    (s'.tasks[i]? = some TaskStatus.pending ∨
      s'.tasks[i]? = some TaskStatus.doneSkipped) ∧
    (∀ j, s'.tasks[j]? = some TaskStatus.running →
      ∃ s'', Step env s' s'' ∧
        s''.tasks[j]? = some (TaskStatus.doneOutcome (classifyUpload (env j)) false)) ∧
    (mkSummary s').cancelled = true := by
  refine ⟨reaches_pending_stays h i hstop hp, ?_, ?_⟩
  · intro j hj
    refine ⟨_, Step.finishWork s' j hj, ?_⟩
    show (s'.tasks.set j _)[j]? = _
    rw [List.getElem?_set_self (List.getElem?_eq_some.mp hj).1]
  · show s'.stop = true
    exact reaches_stop_mono h hstop

/-- Witness for `cancellation_blocks_undispatched`: with the stop flag
set before dispatch, the single task ends skipped, and the summary is
cancelled. -/
theorem cancellation_blocks_undispatched_witness :
    (runWSkip.tasks[0]? = some TaskStatus.pending ∨
      runWSkip.tasks[0]? = some TaskStatus.doneSkipped) ∧
    (mkSummary runWSkip).cancelled = true := by
  have h := cancellation_blocks_undispatched envW runWStop runWSkip 0 rfl rfl
    (Relation.ReflTransGen.tail Relation.ReflTransGen.refl step_runWSkip)
  exact ⟨h.1, h.2.2⟩

/-- C9: the snapshot fixes total before dispatch — in every reachable
state, those with counter or bar increments included, total still equals
the length of the materialized list, so total is established before any
completed increment can be observed — and any state whose terminal
summary has been reported has every task finished: with an outcome, or
abandoned as skipped under cancellation. -/
theorem total_fixed_and_summary_last (env : Nat → UploadResult)
    (files : List String) (s : RunState)
    (h : Reaches env (initRun files) s) :
    s.total = files.length ∧
    s.tasks.length = files.length ∧
    (s.summaryDone = true → ∀ st ∈ s.tasks, st.isDone = true) := by
  have hinv := runInv_reaches h (runInv_init files)
  have ht : s.total = files.length := by
    have := reaches_total_eq h
    simpa [initRun] using this
  exact ⟨ht, by rw [hinv.len, ht], hinv.sumAll⟩

/-- Witness for `total_fixed_and_summary_last` at the summary state of
the one-file run. -/
theorem total_fixed_and_summary_last_witness :
    runW.total = filesW.length ∧ (∀ st ∈ runW.tasks, st.isDone = true) := by
  have h := total_fixed_and_summary_last envW filesW runW reaches_runW
  exact ⟨h.1, h.2.2 rfl⟩

/-! ## `start_embedding` (app.py lines 385-419)

```python
def start_embedding(self):
    if not self.app_config.is_valid(): ...warning...; return
    if not self.base_dir: ...warning...; return
    if self.embedding_in_progress: ...warning "already in progress"...; return
    ...; confirm = messagebox.askyesno(...)
    if not confirm: return
    self.embedding_in_progress = True
    self.stop_requested = False
    ...thread start...
```
-/

/-- The GUI-owned flags `start_embedding` consults and writes. -/
structure AppState where
  app_config : Config
  base_dir : String
  embedding_in_progress : Bool
  stop_requested : Bool
  deriving Repr, DecidableEq

/-- How an invocation of `start_embedding` returned. -/
inductive StartResult : Type where
  /-- Invalid config: warning shown, config window opened, no run. -/
  | rejectedNoConfig
  /-- No folder selected: warning shown, no run. -/
  | rejectedNoFolder
  /-- "An embedding process is already in progress.": warning, no run. -/
  | rejectedBusy
  /-- The user answered No to the confirmation dialog: no run. -/
  | rejectedNotConfirmed
  /-- Flags set and the embedding thread started. -/
  | started
  deriving Repr, DecidableEq

/-- `start_embedding` as a function of the app state and the user's
answer to the confirmation dialog. -/
def start_embedding (st : AppState) (confirm : Bool) : AppState × StartResult :=
  if !st.app_config.is_valid then (st, .rejectedNoConfig)
  else if st.base_dir = "" then (st, .rejectedNoFolder)
  else if st.embedding_in_progress then (st, .rejectedBusy)
  else if !confirm then (st, .rejectedNotConfirmed)
  else ({ st with embedding_in_progress := true, stop_requested := false }, .started)

/-- C8: while a run is in progress, a second `start_embedding` is
rejected: it starts no work and leaves the whole app state — the first
run's flags included — unchanged, whatever the config, folder or
confirmation answer. -/
theorem start_embedding_rejects_while_running (st : AppState) (confirm : Bool)
    (h : st.embedding_in_progress = true) :
    (start_embedding st confirm).1 = st ∧
    (start_embedding st confirm).2 ≠ StartResult.started := by
  unfold start_embedding
  by_cases h1 : st.app_config.is_valid <;> by_cases h2 : st.base_dir = "" <;>
    simp [h1, h2, h]

/-- Witness for `start_embedding_rejects_while_running`: with a valid
config and a folder chosen, a second start while busy returns
`rejectedBusy` and changes nothing. -/
theorem start_embedding_rejects_while_running_witness :
    (start_embedding
        { app_config := { api_url := "http://x", api_token := "t" },
          base_dir := "d", embedding_in_progress := true, stop_requested := false }
        true).1
      = { app_config := { api_url := "http://x", api_token := "t" },
          base_dir := "d", embedding_in_progress := true, stop_requested := false } ∧
    (start_embedding
        { app_config := { api_url := "http://x", api_token := "t" },
          base_dir := "d", embedding_in_progress := true, stop_requested := false }
        true).2
      = StartResult.rejectedBusy := by
  have h := start_embedding_rejects_while_running
    { app_config := { api_url := "http://x", api_token := "t" },
      base_dir := "d", embedding_in_progress := true, stop_requested := false }
    true rfl
  exact ⟨h.1, by decide⟩

end BulkEmbed
